import Mathlib

/-!
# syncnet: a shallow embedding of `src/syncnet.cc`

The four exported operations (`connectImpl`, `readImpl`, `writeImpl`,
`closeImpl`) are embedded as pure functions over an explicit operating-system
oracle.  Every system call the C++ code issues is a field of `OS`; the oracle
is a state machine, so a call may answer differently each time it is made.
Each operation returns the raised error or the returned value, the list of
system calls it issued (in order) and the oracle state it leaves behind.

Conventions.
* C `int` variables are `Int`.  The counters of `writeImpl` stay inside
  `[0, data->Length()]`, and `Length()` is itself an `int`, so no operation of
  the embedded code can overflow and no reduction modulo `2^32` is needed.
* A JavaScript string is represented by its sequence of bytes: for an argument
  the bytes `String::WriteAscii` produces for it (one byte per character), for
  a result the bytes handed to `String::New`.
* A JavaScript number is represented by the `int` that the C++ conversion
  `int x = v->NumberValue()` yields for it.
-/

namespace Syncnet

/-- One octet of a buffer. -/
abbrev Byte := Nat

/-- The buffer size, `#define BUFSIZE 4096`. -/
def BUFSIZE : Int := 4096

/-- The JavaScript values the operations distinguish: `IsNumber()`,
`IsString()`, or neither. -/
inductive JSValue where
  | undefined
  | number (asInt : Int)
  | string (bytes : List Byte)
  | other
  deriving DecidableEq

/-- The test `v->IsNumber()`. -/
def JSValue.IsNumber : JSValue → Bool
  | .number _ => true
  | _ => false

/-- The test `v->IsString()`. -/
def JSValue.IsString : JSValue → Bool
  | .string _ => true
  | _ => false

/-- The conversion `int x = v->NumberValue()` (only called after `IsNumber()` succeeded). -/
def JSValue.NumberValue : JSValue → Int
  | .number n => n
  | _ => 0

/-- The bytes of `v->ToString()` (only called after `IsString()` succeeded). -/
def JSValue.ToString : JSValue → List Byte
  | .string bs => bs
  | _ => []

/-- The argument `args[i]`: V8 yields `undefined` past the end of the argument list. -/
def argAt (args : List JSValue) (i : Nat) : JSValue :=
  args.getD i JSValue.undefined

/-- The two kinds of exception the module throws: `throwTypeError` and
`throwError`, each with its message. -/
inductive JSError where
  | typeError (msg : String)
  | error (msg : String)
  deriving DecidableEq

/-- What an operation hands back to JavaScript: a thrown exception or the
returned value. -/
inductive Completion where
  | threw (e : JSError)
  | returned (v : JSValue)
  deriving DecidableEq

/-- One node of the `addrinfo` list `getaddrinfo` produces. -/
structure AddrInfo where
  ai_family : Int
  ai_socktype : Int
  ai_protocol : Int
  ai_addr : List Byte
  deriving DecidableEq

/-- A system call as issued, with its arguments and the value it returned. -/
inductive Syscall where
  | getaddrinfo (host : List Byte) (port : Int) (rv : Int)
  | socket (family socktype protocol : Int) (fd : Int)
  | connect (fd : Int) (addr : List Byte) (rv : Int)
  | close (fd : Int) (rv : Int)
  | recv (fd : Int) (len : Int) (n : Int)
  | send (fd : Int) (buf : List Byte) (len : Int) (n : Int)
  deriving DecidableEq

/-- The operating system as an oracle with state `σ`.  Each field is one of
the calls the module makes; it receives the current state and the call's
arguments and yields the call's result and the next state.
* `getaddrinfo host port` yields the return code and the resolved list;
* `recv fd len` yields the return value and the bytes stored in the buffer;
* `send fd buf len` receives the first `len` bytes of the buffer as `buf`. -/
structure OS (σ : Type) where
  getaddrinfo : σ → List Byte → Int → (Int × List AddrInfo) × σ
  gai_strerror : Int → String
  socket : σ → Int → Int → Int → Int × σ
  connect : σ → Int → List Byte → Int × σ
  close : σ → Int → Int × σ
  recv : σ → Int → Int → (Int × List Byte) × σ
  send : σ → Int → List Byte → Int → Int × σ

/-- The observable outcome of one operation: what it hands back, the system
calls it made in order, and the oracle state afterwards. -/
structure Outcome (σ : Type) where
  result : Completion
  trace : List Syscall
  st : σ

/-- The exception `throwError("send() failed")`. -/
def sendFailed : JSError := JSError.error "send() failed"

/-- The exception `throwError("recv() failed")`. -/
def recvFailed : JSError := JSError.error "recv() failed"

/-- The exception `throwError("connect() failed")`. -/
def connectFailed : JSError := JSError.error "connect() failed"

/-! ## `writeImpl` -/

/-- The bytes `data->WriteAscii(buf, start, length, 0)` stores in `buf`, for `start + length` within the
string: the `length` bytes of `data` from offset `start` on. -/
def WriteAscii (data : List Byte) (start length : Int) : List Byte :=
  (data.drop start.toNat).take length.toNat

/-- The local variables `start`, `remaining`, `nBytes` of `writeImpl`. -/
structure WriteVars where
  start : Int
  remaining : Int
  nBytes : Int
  deriving DecidableEq

/-- Outcome of the batching loop, with the values of the loop variables at
every evaluation of the loop condition (`heads`, a ghost record). -/
structure WriteRun (σ : Type) where
  result : Completion
  trace : List Syscall
  heads : List WriteVars
  st : σ

/-- The loop `while (remaining > 0) { ... }` of `writeImpl` together with the
final `return`, started with the given values of the loop variables. -/
def writeLoop {σ : Type} (os : OS σ) (sock : Int) (data : List Byte)
    (start remaining nBytes : Int) (s : σ) : WriteRun σ :=
  if _h : remaining > 0 then
    let batch : Int := if remaining ≤ BUFSIZE - 1 then remaining else BUFSIZE - 1
    let buf := WriteAscii data start batch
    let r := os.send s sock buf batch
    let nBatch := r.1
    if nBatch = -1 then
      { result := .threw sendFailed
        trace := [.send sock buf batch nBatch]
        heads := [⟨start, remaining, nBytes⟩]
        st := r.2 }
    else if nBatch < batch then
      { result := .returned (.number (nBytes + nBatch))
        trace := [.send sock buf batch nBatch]
        heads := [⟨start, remaining, nBytes⟩]
        st := r.2 }
    else
      let rest := writeLoop os sock data (start + batch) (remaining - batch) (nBytes + batch) r.2
      { rest with
        trace := .send sock buf batch nBatch :: rest.trace
        heads := ⟨start, remaining, nBytes⟩ :: rest.heads }
  else
    { result := .returned (.number nBytes)
      trace := []
      heads := [⟨start, remaining, nBytes⟩]
      st := s }
termination_by remaining.toNat
decreasing_by
  simp only [BUFSIZE]
  split <;> omega

/-- The function `Handle<Value> writeImpl(const Arguments& args)`, with its ghost record of
loop heads. -/
def writeRun {σ : Type} (os : OS σ) (s : σ) (args : List JSValue) : WriteRun σ :=
  if args.length < 1 then
    ⟨.threw (.typeError "socket and data are not specified"), [], [], s⟩
  else if args.length < 2 then
    ⟨.threw (.typeError "data is not specified"), [], [], s⟩
  else if !(argAt args 0).IsNumber then
    ⟨.threw (.typeError "socket is not a number"), [], [], s⟩
  else if !(argAt args 1).IsString then
    ⟨.threw (.typeError "data is not a string"), [], [], s⟩
  else
    let sock := (argAt args 0).NumberValue
    let data := (argAt args 1).ToString
    let remaining : Int := data.length
    writeLoop os sock data 0 remaining 0 s

/-- The function `Handle<Value> writeImpl(const Arguments& args)`. -/
def writeImpl {σ : Type} (os : OS σ) (s : σ) (args : List JSValue) : Outcome σ :=
  let r := writeRun os s args
  ⟨r.result, r.trace, r.st⟩

/-! ## `connectImpl` -/

/-- The function `int parseArgs(const Arguments& args, int* pPort, char** pHost)`: the
thrown type error when it returns `-1`, the port and host it stores when it
returns `0`. -/
def parseArgs (args : List JSValue) : Except JSError (Int × List Byte) :=
  if args.length < 1 then
    .error (.typeError "port is not specified")
  else if !(argAt args 0).IsNumber then
    .error (.typeError "port is not a number")
  else
    let port := (argAt args 0).NumberValue
    if args.length ≥ 2 then
      if !(argAt args 1).IsString then
        .error (.typeError "host is not a string")
      else
        .ok (port, (argAt args 1).ToString)
    else
      -- host is not specified, use default value: "localhost"
      .ok (port, [108, 111, 99, 97, 108, 104, 111, 115, 116])

/-- State of `connectImpl` when its `for` loop is left: the list node `p`
stands on (`[]` is `NULL`), the variable `sock`, the calls made and the oracle
state. -/
structure ConnectRun (σ : Type) where
  p : List AddrInfo
  sock : Int
  trace : List Syscall
  st : σ

/-- The loop `for (p = servinfo; p != NULL; p = p->ai_next) { ... }` of
`connectImpl`, entered with `p` at the given list node. -/
def connectLoop {σ : Type} (os : OS σ) : List AddrInfo → Int → σ → ConnectRun σ
  | [], sock, s => ⟨[], sock, [], s⟩
  | ai :: next, _, s =>
    let r := os.socket s ai.ai_family ai.ai_socktype ai.ai_protocol
    let sock := r.1
    if sock = -1 then
      let rest := connectLoop os next sock r.2
      { rest with
        trace := .socket ai.ai_family ai.ai_socktype ai.ai_protocol sock :: rest.trace }
    else
      let c := os.connect r.2 sock ai.ai_addr
      if c.1 = -1 then
        let cl := os.close c.2 sock
        let rest := connectLoop os next sock cl.2
        { rest with
          trace := .socket ai.ai_family ai.ai_socktype ai.ai_protocol sock ::
            .connect sock ai.ai_addr c.1 :: .close sock cl.1 :: rest.trace }
      else
        { p := ai :: next
          sock := sock
          trace := [.socket ai.ai_family ai.ai_socktype ai.ai_protocol sock,
            .connect sock ai.ai_addr c.1]
          st := c.2 }

/-- The message `snprintf(errMsg, 64, "getaddrinfo: %s\n", gai_strerror(rv))`
leaves in `errMsg`. -/
def getaddrinfoMessage (reason : String) : String :=
  ("getaddrinfo: " ++ reason ++ "\n").take 63

/-- The function `Handle<Value> connectImpl(const Arguments& args)`.  The variable `sock`
is uninitialised before the loop and is never read before `socket` assigns
it; the embedding starts it at `0`. -/
def connectImpl {σ : Type} (os : OS σ) (s : σ) (args : List JSValue) : Outcome σ :=
  match parseArgs args with
  | .error e => ⟨.threw e, [], s⟩
  | .ok (port, host) =>
    let g := os.getaddrinfo s host port
    let rv := g.1.1
    let servinfo := g.1.2
    if rv ≠ 0 then
      ⟨.threw (.error (getaddrinfoMessage (os.gai_strerror rv))),
        [.getaddrinfo host port rv], g.2⟩
    else
      let l := connectLoop os servinfo 0 g.2
      if l.p = [] then
        ⟨.threw connectFailed, .getaddrinfo host port rv :: l.trace, l.st⟩
      else
        ⟨.returned (.number l.sock), .getaddrinfo host port rv :: l.trace, l.st⟩

/-! ## `readImpl` and `closeImpl` -/

/-- The buffer after `recv` stored the bytes `got` at its start. -/
def recvStore (buf got : List Byte) : List Byte :=
  got ++ buf.drop got.length

/-- The bytes `String::New(buf)` reads from a `char*`: those before the first
zero byte. -/
def cString (buf : List Byte) : List Byte :=
  buf.takeWhile (fun b => b ≠ 0)

/-- The function `Handle<Value> readImpl(const Arguments& args)`; `buf0` is the content of
the uninitialised stack array `char buf[BUFSIZE]` on entry. -/
def readImpl {σ : Type} (os : OS σ) (s : σ) (buf0 : List Byte) (args : List JSValue) :
    Outcome σ :=
  if args.length < 1 then
    ⟨.threw (.typeError "socket is not specified"), [], s⟩
  else if !(argAt args 0).IsNumber then
    ⟨.threw (.typeError "socket is not a number"), [], s⟩
  else
    let sock := (argAt args 0).NumberValue
    let r := os.recv s sock (BUFSIZE - 1)
    let nBytes := r.1.1
    let buf := recvStore buf0 r.1.2
    if nBytes ≤ 0 then
      ⟨.threw recvFailed, [.recv sock (BUFSIZE - 1) nBytes], r.2⟩
    else
      let buf := buf.set nBytes.toNat 0
      ⟨.returned (.string (cString buf)), [.recv sock (BUFSIZE - 1) nBytes], r.2⟩

/-- The function `Handle<Value> closeImpl(const Arguments& args)`. -/
def closeImpl {σ : Type} (os : OS σ) (s : σ) (args : List JSValue) : Outcome σ :=
  if args.length < 1 then
    ⟨.threw (.typeError "socket is not specified"), [], s⟩
  else if !(argAt args 0).IsNumber then
    ⟨.threw (.typeError "socket is not a number"), [], s⟩
  else
    let sock := (argAt args 0).NumberValue
    let r := os.close s sock
    ⟨.returned (.number r.1), [.close sock r.1], r.2⟩

/-! ## Reading a trace -/

/-- Whether a system call is a `send`. -/
def Syscall.isSend : Syscall → Bool
  | .send _ _ _ _ => true
  | _ => false

/-- The buffers handed to `send`, in call order. -/
def sentBatches : List Syscall → List (List Byte)
  | [] => []
  | .send _ buf _ _ :: tr => buf :: sentBatches tr
  | _ :: tr => sentBatches tr

/-- The `send` call that hands over `buf` whole and is accepted whole. -/
def sendAll (sock : Int) (buf : List Byte) : Syscall :=
  .send sock buf buf.length buf.length

/-- The payload bytes at offsets `[off, min (off + 4095) L)`. -/
def slice (data : List Byte) (off : Nat) : List Byte :=
  (data.drop off).take 4095

/-- The lengths the `send` calls were asked to transmit, in call order. -/
def batchSizes : List Syscall → List Int
  | [] => []
  | .send _ _ len _ :: tr => len :: batchSizes tr
  | _ :: tr => batchSizes tr

/-- The `(family, socktype, protocol)` triples of the `socket` calls, in call
order. -/
def socketCalls : List Syscall → List (Int × Int × Int)
  | [] => []
  | .socket f t pr _ :: tr => (f, t, pr) :: socketCalls tr
  | _ :: tr => socketCalls tr

/-- The sockets open after the calls of a trace, starting from the sockets
`opened`: a `socket` call that does not return `-1` opens the descriptor it
returns, a `close` call closes the descriptor it is given. -/
def openSockets : List Int → List Syscall → List Int
  | opened, [] => opened
  | opened, .socket _ _ _ fd :: tr => openSockets (if fd = -1 then opened else fd :: opened) tr
  | opened, .close fd _ :: tr => openSockets (opened.erase fd) tr
  | opened, _ :: tr => openSockets opened tr

/-- A transport whose every `send` accepts the whole batch it is given: the
call returns the length it was asked to send. -/
def Cooperative {σ : Type} (os : OS σ) : Prop :=
  ∀ (s : σ) (fd : Int) (buf : List Byte) (len : Int), (os.send s fd buf len).1 = len

/-! ## Concrete oracles -/

/-- A transport driven by a script: the `k`-th `send` call (counting from 0),
asked to send `len` bytes, returns `answer k len`.  The state counts the
`send` calls made; every other call fails. -/
def sendScript (answer : Nat → Int → Int) : OS Nat where
  getaddrinfo := fun k _ _ => ((-2, []), k)
  gai_strerror := fun _ => "Name or service not known"
  socket := fun k _ _ _ => (-1, k)
  connect := fun k _ _ => (-1, k)
  close := fun k _ => (-1, k)
  recv := fun k _ _ => ((-1, []), k)
  send := fun k _ _ len => (answer k len, k + 1)

/-- A resolver and socket layer driven by a script: `getaddrinfo` succeeds
with `servinfo`; the `i`-th `socket` call after it (counting from 0) returns
`sockRes i` and the `connect` that follows it returns `connRes i`.  The state
counts the `socket` calls made since resolution. -/
def connectScript (servinfo : List AddrInfo) (sockRes connRes : Nat → Int) : OS Nat where
  getaddrinfo := fun _ _ _ => ((0, servinfo), 0)
  gai_strerror := fun _ => ""
  socket := fun i _ _ _ => (sockRes i, i + 1)
  connect := fun i _ _ => (connRes (i - 1), i)
  close := fun i _ => (0, i)
  recv := fun i _ _ => ((-1, []), i)
  send := fun i _ _ _ => (-1, i)

/-- A payload five bytes longer than a full batch: 4100 times the letter `a`. -/
def longPayload : List Byte := List.replicate 4100 97

/-- A stack buffer holding stale bytes: 4096 times the letter `x`. -/
def staleBuffer : List Byte := List.replicate 4096 120

/-- A peer whose every `recv` returns `n` after storing `got`. -/
def recvScript (n : Int) (got : List Byte) : OS Unit where
  getaddrinfo := fun _ _ _ => ((-2, []), ())
  gai_strerror := fun _ => "Name or service not known"
  socket := fun _ _ _ _ => (-1, ())
  connect := fun _ _ _ => (-1, ())
  close := fun _ _ => (0, ())
  recv := fun _ _ _ => ((n, got), ())
  send := fun _ _ _ _ => (-1, ())

/-! ## Unfolding the loop -/

theorem writeLoop_exit {σ : Type} (os : OS σ) (sock : Int) (data : List Byte)
    (start remaining nBytes : Int) (s : σ) (h : ¬ remaining > 0) :
    writeLoop os sock data start remaining nBytes s =
      ⟨.returned (.number nBytes), [], [⟨start, remaining, nBytes⟩], s⟩ := by
  rw [writeLoop]
  simp [h]

theorem writeLoop_body {σ : Type} (os : OS σ) (sock : Int) (data : List Byte)
    (start remaining nBytes : Int) (s : σ) (h : remaining > 0) :
    writeLoop os sock data start remaining nBytes s =
      (let batch : Int := if remaining ≤ BUFSIZE - 1 then remaining else BUFSIZE - 1
       let buf := WriteAscii data start batch
       let r := os.send s sock buf batch
       let nBatch := r.1
       if nBatch = -1 then
         ⟨.threw sendFailed, [.send sock buf batch nBatch], [⟨start, remaining, nBytes⟩], r.2⟩
       else if nBatch < batch then
         ⟨.returned (.number (nBytes + nBatch)), [.send sock buf batch nBatch],
           [⟨start, remaining, nBytes⟩], r.2⟩
       else
         let rest := writeLoop os sock data (start + batch) (remaining - batch)
           (nBytes + batch) r.2
         ⟨rest.result, .send sock buf batch nBatch :: rest.trace,
           ⟨start, remaining, nBytes⟩ :: rest.heads, rest.st⟩) := by
  rw [writeLoop]
  simp [h]

/-! ## A cooperative transport -/

/-- On a cooperative transport the loop, entered at offset `start` with
`remaining` bytes to go, sends the slices of the payload from `start` on, each
accepted whole, and returns `nBytes + remaining`. -/
theorem writeLoop_cooperative {σ : Type} (os : OS σ) (hc : Cooperative os) (sock : Int)
    (data : List Byte) :
    ∀ (n : Nat) (start remaining nBytes : Int) (s : σ),
      remaining.toNat = n → 0 ≤ start → 0 ≤ remaining → start + remaining = data.length →
      (writeLoop os sock data start remaining nBytes s).result
          = .returned (.number (nBytes + remaining)) ∧
      (writeLoop os sock data start remaining nBytes s).trace
          = (List.range ((n + 4094) / 4095)).map
              (fun k => sendAll sock (slice data (start.toNat + 4095 * k))) := by
  intro n
  induction n using Nat.strong_induction_on with
  | _ n ih =>
    intro start remaining nBytes s hn hs hr hL
    by_cases hpos : remaining > 0
    · rw [writeLoop_body os sock data start remaining nBytes s hpos]
      have hsend : ∀ (s : σ) (fd : Int) (buf : List Byte) (len : Int),
          (os.send s fd buf len).1 = len := hc
      simp only [hsend]
      by_cases hle : remaining ≤ BUFSIZE - 1
      · -- last batch
        simp only [hle, if_true]
        have hb : ¬ remaining = -1 := by omega
        have hlen : (data.drop start.toNat).length = remaining.toNat := by
          simp only [List.length_drop]; omega
        have hbuf : WriteAscii data start remaining = slice data start.toNat := by
          simp only [WriteAscii, slice]
          rw [List.take_of_length_le (by omega), List.take_of_length_le]
          simp only [BUFSIZE] at hle; omega
        have hbl : ((slice data start.toNat).length : Int) = remaining := by
          rw [← hbuf]; simp only [WriteAscii]
          rw [List.take_of_length_le (by omega), hlen]; omega
        have hrest := ih 0 (by omega) (start + remaining) (remaining - remaining)
          (nBytes + remaining) (os.send s sock (WriteAscii data start remaining) remaining).2
          (by simp) (by omega) (by omega) (by omega)
        simp only [hb, if_false, lt_irrefl]
        refine ⟨?_, ?_⟩
        · rw [hrest.1]; simp
        · rw [hrest.2]
          have h1 : (n + 4094) / 4095 = 1 := by simp only [BUFSIZE] at hle; omega
          simp [h1, sendAll, hbuf, hbl, List.range_succ]
      · -- a full batch of 4095 bytes, more to come
        simp only [hle, if_false]
        have hbig : (4095 : Int) < remaining := by simp only [BUFSIZE] at hle; omega
        have hB : BUFSIZE - 1 = 4095 := by simp [BUFSIZE]
        rw [hB]
        have hbuf : WriteAscii data start 4095 = slice data start.toNat := by
          simp [WriteAscii, slice]
        have hbl : ((slice data start.toNat).length : Int) = 4095 := by
          simp only [slice, List.length_take, List.length_drop]; omega
        have hrest := ih (n - 4095) (by omega) (start + 4095) (remaining - 4095)
          (nBytes + 4095) (os.send s sock (WriteAscii data start 4095) 4095).2
          (by omega) (by omega) (by omega) (by omega)
        have h1 : (n + 4094) / 4095 = (n - 4095 + 4094) / 4095 + 1 := by omega
        simp only [show ¬ ((4095 : Int) = -1) by omega, if_false, lt_irrefl]
        refine ⟨?_, ?_⟩
        · rw [hrest.1]; congr 2; omega
        · rw [hrest.2, h1, List.range_succ_eq_map]
          simp only [List.map_cons, List.map_map, sendAll, hbuf, hbl, Nat.mul_zero,
            Nat.add_zero]
          congr 1
          apply List.map_congr_left
          intro k _
          have : (start + 4095).toNat + 4095 * k = start.toNat + 4095 * (k + 1) := by omega
          simp [this]
    · rw [writeLoop_exit os sock data start remaining nBytes s hpos]
      have h0 : remaining = 0 := by omega
      have hn0 : n = 0 := by omega
      simp [h0, hn0]

theorem writeRun_valid {σ : Type} (os : OS σ) (s : σ) (sock : Int) (data : List Byte) :
    writeRun os s [.number sock, .string data] = writeLoop os sock data 0 data.length 0 s := by
  simp [writeRun, argAt, JSValue.IsNumber, JSValue.IsString, JSValue.NumberValue,
    JSValue.ToString]

theorem writeImpl_valid {σ : Type} (os : OS σ) (s : σ) (sock : Int) (data : List Byte) :
    writeImpl os s [.number sock, .string data] =
      ⟨(writeLoop os sock data 0 data.length 0 s).result,
        (writeLoop os sock data 0 data.length 0 s).trace,
        (writeLoop os sock data 0 data.length 0 s).st⟩ := by
  simp [writeImpl, writeRun_valid]

/-- The whole of `writeImpl` on a cooperative transport: it returns the
payload length after sending the payload's consecutive 4095-byte slices. -/
theorem writeImpl_cooperative {σ : Type} (os : OS σ) (hc : Cooperative os) (s : σ)
    (sock : Int) (data : List Byte) :
    (writeImpl os s [.number sock, .string data]).result
        = .returned (.number data.length) ∧
    (writeImpl os s [.number sock, .string data]).trace
        = (List.range ((data.length + 4094) / 4095)).map
            (fun k => sendAll sock (slice data (4095 * k))) := by
  have h := writeLoop_cooperative os hc sock data data.length 0 data.length 0 s
    (by simp) (by omega) (by omega) (by omega)
  rw [writeImpl_valid]
  simpa using h

theorem filter_isSend_sendAll (sock : Int) (f : Nat → List Byte) (l : List Nat) :
    (l.map (fun k => sendAll sock (f k))).filter Syscall.isSend
      = l.map (fun k => sendAll sock (f k)) := by
  induction l with
  | nil => rfl
  | cons a l ih => simp [sendAll, Syscall.isSend] at ih ⊢

theorem sentBatches_sendAll (sock : Int) (f : Nat → List Byte) (l : List Nat) :
    sentBatches (l.map (fun k => sendAll sock (f k))) = l.map f := by
  induction l with
  | nil => rfl
  | cons a l ih => simp [sendAll, sentBatches] at ih ⊢; exact ih

theorem slice_eq_interval (data : List Byte) (off : Nat) :
    slice data off = (data.drop off).take (min (off + 4095) data.length - off) := by
  unfold slice
  by_cases h : off + 4095 ≤ data.length
  · have : min (off + 4095) data.length - off = 4095 := by omega
    rw [this]
  · have : min (off + 4095) data.length - off = data.length - off := by omega
    rw [this, List.take_of_length_le, List.take_of_length_le]
    · simp
    · simp only [List.length_drop]; omega

theorem join_slices (data : List Byte) :
    ∀ (N off : Nat), data.length ≤ off + 4095 * N →
      ((List.range N).map (fun k => slice data (off + 4095 * k))).flatten = data.drop off := by
  intro N
  induction N with
  | zero =>
    intro off h
    simp only [Nat.mul_zero, Nat.add_zero] at h
    simp [List.drop_of_length_le h]
  | succ N ih =>
    intro off h
    rw [List.range_succ_eq_map]
    simp only [List.map_cons, List.map_map, List.flatten_cons, Nat.mul_zero, Nat.add_zero]
    have hfun : ((fun k => slice data (off + 4095 * k)) ∘ Nat.succ)
        = fun k => slice data ((off + 4095) + 4095 * k) := by
      funext k
      simp only [Function.comp, Nat.succ_eq_add_one]
      congr 1; ring
    rw [hfun, ih (off + 4095) (by omega)]
    simp only [slice]
    rw [← List.drop_drop]
    exact List.take_append_drop 4095 (data.drop off)

/-! ## Claims about `writeImpl` on a cooperative transport -/

/-- C1: for a payload of length `L > 4095` and a transport whose every `send`
accepts the whole batch, `writeImpl` returns exactly `L` and issues exactly
`⌈L / 4095⌉ = (L + 4094) / 4095` `send` calls (and no other system call). -/
theorem write_long_payload {σ : Type} (os : OS σ) (s : σ) (sock : Int) (data : List Byte)
    (hc : Cooperative os) (hL : 4095 < data.length) :
    (writeImpl os s [.number sock, .string data]).result
        = .returned (.number data.length) ∧
    ((writeImpl os s [.number sock, .string data]).trace.filter Syscall.isSend).length
        = (data.length + 4094) / 4095 ∧
    (writeImpl os s [.number sock, .string data]).trace.length
        = (data.length + 4094) / 4095 ∧
    4095 * ((data.length + 4094) / 4095 - 1) < data.length ∧
    data.length ≤ 4095 * ((data.length + 4094) / 4095) := by
  obtain ⟨hres, htr⟩ := writeImpl_cooperative os hc s sock data
  refine ⟨hres, ?_, ?_, by omega, by omega⟩
  · rw [htr, filter_isSend_sendAll]; simp
  · rw [htr]; simp

theorem write_long_payload_witness :
    (writeImpl (sendScript (fun _ len => len)) 0
        [.number 3, .string (List.replicate 4096 97)]).result
      = .returned (.number 4096) ∧
    ((writeImpl (sendScript (fun _ len => len)) 0
        [.number 3, .string (List.replicate 4096 97)]).trace.filter Syscall.isSend).length
      = 2 := by
  have h := write_long_payload (sendScript (fun _ len => len)) 0 3 (List.replicate 4096 97)
    (fun _ _ _ _ => rfl) (by rw [List.length_replicate]; omega)
  simp only [List.length_replicate] at h
  exact ⟨h.1, h.2.1⟩

/-- C2 as stated fails on the empty payload: the loop body never runs, so no
`send` call is issued at all, although the transport is cooperative and the
length is at most 4095. -/
theorem write_empty_payload_no_send :
    Cooperative (sendScript (fun _ len => len)) ∧
    ([] : List Byte).length ≤ 4095 ∧
    (writeImpl (sendScript (fun _ len => len)) 0 [.number 3, .string []]).trace = [] ∧
    ((writeImpl (sendScript (fun _ len => len)) 0
        [.number 3, .string []]).trace.filter Syscall.isSend).length ≠ 1 := by
  have h : (writeImpl (sendScript (fun _ len => len)) 0 [.number 3, .string []]).trace = [] := by
    rw [writeImpl_valid, writeLoop_exit _ _ _ _ _ _ _ (by simp)]
  refine ⟨fun _ _ _ _ => rfl, by simp, h, ?_⟩
  rw [h]; simp

/-- C2, amended: for a payload of length `L ≤ 4095` and a transport whose
every `send` accepts the whole batch, `writeImpl` returns `L`; it issues
exactly one `send` call, carrying the whole payload, when `L > 0`, and no
system call at all when `L = 0`. -/
theorem write_short_payload {σ : Type} (os : OS σ) (s : σ) (sock : Int) (data : List Byte)
    (hc : Cooperative os) (hL : data.length ≤ 4095) :
    (writeImpl os s [.number sock, .string data]).result
        = .returned (.number data.length) ∧
    (0 < data.length →
      (writeImpl os s [.number sock, .string data]).trace
        = [.send sock data data.length data.length]) ∧
    (data.length = 0 → (writeImpl os s [.number sock, .string data]).trace = []) := by
  obtain ⟨hres, htr⟩ := writeImpl_cooperative os hc s sock data
  refine ⟨hres, ?_, ?_⟩
  · intro hpos
    have h1 : (data.length + 4094) / 4095 = 1 := by omega
    rw [htr, h1]
    have hs : slice data 0 = data := by
      simp only [slice, List.drop_zero]
      exact List.take_of_length_le hL
    simp [List.range_succ, sendAll, hs]
  · intro h0
    rw [htr, h0]
    simp

theorem write_short_payload_witness :
    (writeImpl (sendScript (fun _ len => len)) 0
        [.number 3, .string [112, 105, 110, 103]]).result = .returned (.number 4) ∧
    (writeImpl (sendScript (fun _ len => len)) 0
        [.number 3, .string [112, 105, 110, 103]]).trace
      = [.send 3 [112, 105, 110, 103] 4 4] := by
  have h := write_short_payload (sendScript (fun _ len => len)) 0 3 [112, 105, 110, 103]
    (fun _ _ _ _ => rfl) (by simp)
  exact ⟨h.1, h.2.1 (by simp)⟩

/-- C9: on a transport that accepts every batch in full, the `k`-th buffer
handed to `send` is the payload at offsets `[4095 k, min (4095 (k+1)) L)`;
there are `(L + 4094) / 4095` of them, the boundaries depend on `L` alone, any
other run on the same payload over a cooperative transport hands over the same
buffers, and their concatenation is the payload. -/
theorem write_chunk_boundaries {σ τ : Type} (os : OS σ) (s : σ) (sock : Int)
    (os2 : OS τ) (s2 : τ) (sock2 : Int) (data : List Byte)
    (hc : Cooperative os) (hc2 : Cooperative os2) :
    sentBatches (writeImpl os s [.number sock, .string data]).trace
        = (List.range ((data.length + 4094) / 4095)).map
            (fun k => (data.drop (4095 * k)).take
              (min (4095 * (k + 1)) data.length - 4095 * k)) ∧
    sentBatches (writeImpl os2 s2 [.number sock2, .string data]).trace
        = sentBatches (writeImpl os s [.number sock, .string data]).trace ∧
    (sentBatches (writeImpl os s [.number sock, .string data]).trace).flatten = data := by
  have h1 := (writeImpl_cooperative os hc s sock data).2
  have h2 := (writeImpl_cooperative os2 hc2 s2 sock2 data).2
  rw [h1, h2, sentBatches_sendAll, sentBatches_sendAll]
  refine ⟨?_, rfl, ?_⟩
  · apply List.map_congr_left
    intro k _
    rw [slice_eq_interval]
    congr 2
  · have h := join_slices data ((data.length + 4094) / 4095) 0 (by omega)
    simpa using h

theorem write_chunk_boundaries_witness :
    sentBatches (writeImpl (sendScript (fun _ len => len)) 7
        [.number 5, .string (List.replicate 4097 97)]).trace
      = sentBatches (writeImpl (sendScript (fun _ len => len)) 0
        [.number 3, .string (List.replicate 4097 97)]).trace ∧
    (sentBatches (writeImpl (sendScript (fun _ len => len)) 0
        [.number 3, .string (List.replicate 4097 97)]).trace).flatten
      = List.replicate 4097 97 :=
  (write_chunk_boundaries (sendScript (fun _ len => len)) 0 3
    (sendScript (fun _ len => len)) 7 5 (List.replicate 4097 97)
    (fun _ _ _ _ => rfl) (fun _ _ _ _ => rfl)).2

/-! ## An arbitrary transport -/

/-- The loop body when at most one buffer's worth remains. -/
theorem writeLoop_last {σ : Type} (os : OS σ) (sock : Int) (data : List Byte)
    (start remaining nBytes : Int) (s : σ) (h0 : 0 < remaining) (h1 : remaining ≤ 4095) :
    writeLoop os sock data start remaining nBytes s =
      if (os.send s sock (WriteAscii data start remaining) remaining).1 = -1 then
        ⟨.threw sendFailed,
          [.send sock (WriteAscii data start remaining) remaining
            (os.send s sock (WriteAscii data start remaining) remaining).1],
          [⟨start, remaining, nBytes⟩],
          (os.send s sock (WriteAscii data start remaining) remaining).2⟩
      else if (os.send s sock (WriteAscii data start remaining) remaining).1 < remaining then
        ⟨.returned (.number
            (nBytes + (os.send s sock (WriteAscii data start remaining) remaining).1)),
          [.send sock (WriteAscii data start remaining) remaining
            (os.send s sock (WriteAscii data start remaining) remaining).1],
          [⟨start, remaining, nBytes⟩],
          (os.send s sock (WriteAscii data start remaining) remaining).2⟩
      else
        ⟨.returned (.number (nBytes + remaining)),
          [.send sock (WriteAscii data start remaining) remaining
            (os.send s sock (WriteAscii data start remaining) remaining).1],
          [⟨start, remaining, nBytes⟩, ⟨start + remaining, 0, nBytes + remaining⟩],
          (os.send s sock (WriteAscii data start remaining) remaining).2⟩ := by
  rw [writeLoop_body os sock data start remaining nBytes s h0]
  have hle : remaining ≤ BUFSIZE - 1 := by simp only [BUFSIZE]; omega
  simp only [hle, if_true]
  rw [writeLoop_exit os sock data (start + remaining) (remaining - remaining)
    (nBytes + remaining) _ (by omega)]
  simp

/-- The loop body when more than one buffer's worth remains. -/
theorem writeLoop_more {σ : Type} (os : OS σ) (sock : Int) (data : List Byte)
    (start remaining nBytes : Int) (s : σ) (h1 : 4095 < remaining) :
    writeLoop os sock data start remaining nBytes s =
      if (os.send s sock (WriteAscii data start 4095) 4095).1 = -1 then
        ⟨.threw sendFailed,
          [.send sock (WriteAscii data start 4095) 4095
            (os.send s sock (WriteAscii data start 4095) 4095).1],
          [⟨start, remaining, nBytes⟩],
          (os.send s sock (WriteAscii data start 4095) 4095).2⟩
      else if (os.send s sock (WriteAscii data start 4095) 4095).1 < 4095 then
        ⟨.returned (.number (nBytes + (os.send s sock (WriteAscii data start 4095) 4095).1)),
          [.send sock (WriteAscii data start 4095) 4095
            (os.send s sock (WriteAscii data start 4095) 4095).1],
          [⟨start, remaining, nBytes⟩],
          (os.send s sock (WriteAscii data start 4095) 4095).2⟩
      else
        ⟨(writeLoop os sock data (start + 4095) (remaining - 4095) (nBytes + 4095)
            (os.send s sock (WriteAscii data start 4095) 4095).2).result,
          .send sock (WriteAscii data start 4095) 4095
            (os.send s sock (WriteAscii data start 4095) 4095).1 ::
          (writeLoop os sock data (start + 4095) (remaining - 4095) (nBytes + 4095)
            (os.send s sock (WriteAscii data start 4095) 4095).2).trace,
          ⟨start, remaining, nBytes⟩ ::
          (writeLoop os sock data (start + 4095) (remaining - 4095) (nBytes + 4095)
            (os.send s sock (WriteAscii data start 4095) 4095).2).heads,
          (writeLoop os sock data (start + 4095) (remaining - 4095) (nBytes + 4095)
            (os.send s sock (WriteAscii data start 4095) 4095).2).st⟩ := by
  rw [writeLoop_body os sock data start remaining nBytes s (by omega)]
  have hB : BUFSIZE - 1 = 4095 := by simp [BUFSIZE]
  have hle : ¬ remaining ≤ 4095 := by omega
  simp only [hB, hle, if_false]

theorem singleton_getElem? {α : Type} (a e : α) (k : Nat) (h : [a][k]? = some e) :
    k = 0 ∧ e = a := by
  cases k with
  | zero => simp only [List.getElem?_cons_zero, Option.some.injEq] at h; exact ⟨rfl, h.symm⟩
  | succ k => simp at h

/-- What the `k`-th system call of the loop is, on any transport: a `send` of
the next batch; if it fails or is short it is the last call and fixes the
result, and if another call follows it was a full batch of 4095 bytes. -/
theorem writeLoop_trace_at {σ : Type} (os : OS σ) (sock : Int) (data : List Byte) :
    ∀ (n : Nat) (start remaining nBytes : Int) (s : σ) (k : Nat) (e : Syscall),
      remaining.toNat = n →
      (writeLoop os sock data start remaining nBytes s).trace[k]? = some e →
      ∃ len m, e = .send sock (WriteAscii data (start + 4095 * k) len) len m ∧
        0 < len ∧ len ≤ 4095 ∧ 4095 * (k : Int) + len ≤ remaining ∧
        (m = -1 →
          (writeLoop os sock data start remaining nBytes s).result = .threw sendFailed ∧
          (writeLoop os sock data start remaining nBytes s).trace.length = k + 1) ∧
        (m ≠ -1 → m < len →
          (writeLoop os sock data start remaining nBytes s).result
            = .returned (.number (nBytes + 4095 * k + m)) ∧
          (writeLoop os sock data start remaining nBytes s).trace.length = k + 1) ∧
        (k + 1 < (writeLoop os sock data start remaining nBytes s).trace.length →
          len = 4095 ∧ 4095 ≤ m) := by
  intro n
  induction n using Nat.strong_induction_on with
  | _ n ih =>
    intro start remaining nBytes s k e hn hk
    by_cases hpos : remaining > 0
    swap
    · rw [writeLoop_exit os sock data start remaining nBytes s hpos] at hk
      simp at hk
    by_cases hle : remaining ≤ 4095
    · rw [writeLoop_last os sock data start remaining nBytes s hpos hle] at hk ⊢
      have hk0 : k = 0 ∧
          e = .send sock (WriteAscii data start remaining) remaining
            (os.send s sock (WriteAscii data start remaining) remaining).1 := by
        split_ifs at hk <;> exact singleton_getElem? _ _ _ hk
      clear hk
      obtain ⟨rfl, rfl⟩ := hk0
      simp only [Nat.cast_zero, mul_zero, add_zero, zero_add]
      refine ⟨remaining, (os.send s sock (WriteAscii data start remaining) remaining).1,
        rfl, hpos, hle, le_refl _, ?_, ?_, ?_⟩
      · intro h1; simp [h1]
      · intro h1 h2; simp [h1, h2]
      · intro h3; split_ifs at h3 <;> simp at h3
    · have hbig : (4095 : Int) < remaining := by omega
      rw [writeLoop_more os sock data start remaining nBytes s hbig] at hk ⊢
      by_cases h1 : (os.send s sock (WriteAscii data start 4095) 4095).1 = -1
      · simp only [h1, if_true] at hk ⊢
        have hk0 : k = 0 ∧ e = .send sock (WriteAscii data start 4095) 4095 (-1) :=
          singleton_getElem? _ _ _ hk
        clear hk
        obtain ⟨rfl, rfl⟩ := hk0
        simp only [Nat.cast_zero, mul_zero, add_zero, zero_add]
        refine ⟨4095, -1, rfl, by omega, by omega, by omega, ?_, ?_, ?_⟩
        · intro _; simp
        · intro h; exact absurd rfl h
        · intro h; simp at h
      by_cases h2 : (os.send s sock (WriteAscii data start 4095) 4095).1 < 4095
      · simp only [h1, h2, if_true, if_false] at hk ⊢
        have hk0 : k = 0 ∧ e = .send sock (WriteAscii data start 4095) 4095
            (os.send s sock (WriteAscii data start 4095) 4095).1 :=
          singleton_getElem? _ _ _ hk
        clear hk
        obtain ⟨rfl, rfl⟩ := hk0
        simp only [Nat.cast_zero, mul_zero, add_zero, zero_add]
        refine ⟨4095, (os.send s sock (WriteAscii data start 4095) 4095).1, rfl, by omega,
          by omega, by omega, ?_, ?_, ?_⟩
        · intro h; exact absurd h h1
        · intro _ _; simp
        · intro h; simp at h
      simp only [h1, h2, if_false] at hk ⊢
      cases k with
      | zero =>
        simp only [List.getElem?_cons_zero, Option.some.injEq] at hk
        subst hk
        simp only [Nat.cast_zero, mul_zero, add_zero, zero_add]
        refine ⟨4095, (os.send s sock (WriteAscii data start 4095) 4095).1, rfl, by omega,
          by omega, by omega, ?_, ?_, ?_⟩
        · intro h; exact absurd h h1
        · intro _ h; exact absurd h h2
        · intro _; exact ⟨rfl, by omega⟩
      | succ k =>
        simp only [List.getElem?_cons_succ] at hk
        obtain ⟨len, m, he, hl0, hl1, hl2, hA, hB, hC⟩ :=
          ih (n - 4095) (by omega) (start + 4095) (remaining - 4095) (nBytes + 4095) _ k e
            (by omega) hk
        have e1 : start + 4095 * ((k + 1 : Nat) : Int) = start + 4095 + 4095 * (k : Int) := by
          push_cast; ring
        have e2 : nBytes + 4095 * ((k + 1 : Nat) : Int) + m
            = nBytes + 4095 + 4095 * (k : Int) + m := by
          push_cast; ring
        rw [e1]
        refine ⟨len, m, he, hl0, hl1, by push_cast; omega, ?_, ?_, ?_⟩
        · intro hm
          have := hA hm
          simp [this]
        · intro hm hlt
          have := hB hm hlt
          rw [e2]
          simp [this]
        · intro hlen
          simp only [List.length_cons] at hlen
          exact hC (by omega)

theorem batchSizes_take_full (sock : Int) :
    ∀ (k : Nat) (tr : List Syscall),
      (∀ i, i < k → ∃ b m, tr[i]? = some (.send sock b 4095 m)) →
      ((batchSizes tr).take k).sum = 4095 * (k : Int) := by
  intro k
  induction k with
  | zero => intro tr _; simp
  | succ k ih =>
    intro tr h
    obtain ⟨b, m, h0⟩ := h 0 (by omega)
    cases tr with
    | nil => simp at h0
    | cons e tr =>
      simp only [List.getElem?_cons_zero, Option.some.injEq] at h0
      subst h0
      have hrest : ∀ i, i < k → ∃ b m, tr[i]? = some (.send sock b 4095 m) := by
        intro i hi
        have := h (i + 1) (by omega)
        simpa using this
      simp only [batchSizes, List.take_succ_cons, List.sum_cons, ih tr hrest]
      push_cast; ring

theorem writeImpl_trace_at {σ : Type} (os : OS σ) (s : σ) (sock : Int) (data : List Byte)
    (k : Nat) (e : Syscall)
    (hk : (writeImpl os s [.number sock, .string data]).trace[k]? = some e) :
    ∃ len m, e = .send sock (WriteAscii data (4095 * k) len) len m ∧
      0 < len ∧ len ≤ 4095 ∧ 4095 * (k : Int) + len ≤ data.length ∧
      (m = -1 →
        (writeImpl os s [.number sock, .string data]).result = .threw sendFailed ∧
        (writeImpl os s [.number sock, .string data]).trace.length = k + 1) ∧
      (m ≠ -1 → m < len →
        (writeImpl os s [.number sock, .string data]).result
          = .returned (.number (4095 * k + m)) ∧
        (writeImpl os s [.number sock, .string data]).trace.length = k + 1) ∧
      (k + 1 < (writeImpl os s [.number sock, .string data]).trace.length →
        len = 4095 ∧ 4095 ≤ m) := by
  rw [writeImpl_valid] at hk ⊢
  have h := writeLoop_trace_at os sock data data.length 0 data.length 0 s k e (by simp) hk
  simpa using h

/-! ## Claims about short writes and failures -/

/-- C3: on any transport, if the `(k+1)`-th `send` call of `writeImpl` returns
a count `n` with `0 ≤ n < len`, where `len` is the batch size it was asked to
send, then the earlier `k` calls each carried a full batch of 4095 bytes and
were not cut short, `writeImpl` returns the sum of those `k` batch sizes plus
`n` (that is `4095 k + n`), and the short call is the last system call. -/
theorem write_short_write {σ : Type} (os : OS σ) (s : σ) (sock : Int) (data : List Byte)
    (k : Nat) (fd : Int) (buf : List Byte) (len n : Int)
    (hcall : (writeImpl os s [.number sock, .string data]).trace[k]?
      = some (.send fd buf len n))
    (h0 : 0 ≤ n) (hlt : n < len) :
    (∀ i, i < k → ∃ b m, (writeImpl os s [.number sock, .string data]).trace[i]?
        = some (.send sock b 4095 m) ∧ 4095 ≤ m) ∧
    (writeImpl os s [.number sock, .string data]).result
      = .returned (.number
          (((batchSizes (writeImpl os s [.number sock, .string data]).trace).take k).sum + n)) ∧
    ((batchSizes (writeImpl os s [.number sock, .string data]).trace).take k).sum
      = 4095 * (k : Int) ∧
    (writeImpl os s [.number sock, .string data]).trace.length = k + 1 := by
  obtain ⟨len', m, he, _, _, _, _, hB, _⟩ := writeImpl_trace_at os s sock data k _ hcall
  simp only [Syscall.send.injEq] at he
  obtain ⟨_, _, rfl, rfl⟩ := he
  obtain ⟨hres, hlen⟩ := hB (by omega) hlt
  have hfull : ∀ i, i < k → ∃ b m, (writeImpl os s [.number sock, .string data]).trace[i]?
      = some (.send sock b 4095 m) ∧ 4095 ≤ m := by
    intro i hi
    have hi' : i < (writeImpl os s [.number sock, .string data]).trace.length := by omega
    obtain ⟨l, m, he, _, _, _, _, _, hC⟩ := writeImpl_trace_at os s sock data i _
      (List.getElem?_eq_getElem hi')
    obtain ⟨rfl, hm⟩ := hC (by omega)
    exact ⟨_, m, by rw [List.getElem?_eq_getElem hi', he], hm⟩
  have hsum := batchSizes_take_full sock k (writeImpl os s [.number sock, .string data]).trace
    (fun i hi => by obtain ⟨b, m, h, _⟩ := hfull i hi; exact ⟨b, m, h⟩)
  exact ⟨hfull, by rw [hres, hsum], hsum, hlen⟩

/-- C4: on any transport, if a `send` call of `writeImpl` returns `-1`, the
operation throws the error "send() failed" instead of returning a count,
whatever the number `k` of batches sent before, and the failing call is the
last system call. -/
theorem write_send_failure {σ : Type} (os : OS σ) (s : σ) (sock : Int) (data : List Byte)
    (k : Nat) (fd : Int) (buf : List Byte) (len : Int)
    (hcall : (writeImpl os s [.number sock, .string data]).trace[k]?
      = some (.send fd buf len (-1))) :
    (writeImpl os s [.number sock, .string data]).result = .threw sendFailed ∧
    (∀ v, (writeImpl os s [.number sock, .string data]).result ≠ .returned v) ∧
    (writeImpl os s [.number sock, .string data]).trace.length = k + 1 := by
  obtain ⟨len', m, he, _, _, _, hA, _, _⟩ := writeImpl_trace_at os s sock data k _ hcall
  simp only [Syscall.send.injEq] at he
  obtain ⟨_, _, rfl, rfl⟩ := he
  obtain ⟨hres, hlen⟩ := hA rfl
  refine ⟨hres, ?_, hlen⟩
  intro v hv
  rw [hres] at hv
  cases hv

theorem longPayload_length : longPayload.length = 4100 := by
  rw [longPayload, List.length_replicate]

/-- The run on `longPayload` over a transport that answers the first `send`
with its full length and the second with `n`, when `n` is not a full answer. -/
theorem longPayload_trace (n : Int) (hn : n = -1 ∨ n < 5) :
    writeImpl (sendScript (fun k len => if k = 0 then len else n)) 0
        [.number 3, .string longPayload]
      = ⟨if n = -1 then .threw sendFailed else .returned (.number (4095 + n)),
          [.send 3 (WriteAscii longPayload 0 4095) 4095 4095,
            .send 3 (WriteAscii longPayload 4095 5) 5 n], 2⟩ := by
  rw [writeImpl_valid, longPayload_length]
  rw [writeLoop_more _ _ _ _ _ _ _ (by norm_num)]
  simp only [sendScript, if_true, Nat.cast_ofNat]
  norm_num
  rw [writeLoop_last _ _ _ _ _ _ _ (by norm_num) (by norm_num)]
  simp only [sendScript]
  norm_num
  rcases hn with h | h
  · subst h; simp
  · by_cases h1 : n = -1
    · subst h1; simp
    · simp [h1, h]

theorem write_short_write_witness :
    (writeImpl (sendScript (fun k len => if k = 0 then len else 2)) 0
        [.number 3, .string longPayload]).result = .returned (.number (4095 + 2)) ∧
    (writeImpl (sendScript (fun k len => if k = 0 then len else 2)) 0
        [.number 3, .string longPayload]).trace.length = 2 := by
  have ht := longPayload_trace 2 (Or.inr (by norm_num))
  have h := write_short_write (sendScript (fun k len => if k = 0 then len else 2)) 0 3
    longPayload 1 3 (WriteAscii longPayload 4095 5) 5 2 (by rw [ht]; rfl)
    (by norm_num) (by norm_num)
  refine ⟨?_, h.2.2.2⟩
  rw [h.2.1, h.2.2.1]
  norm_num

theorem write_send_failure_witness :
    (writeImpl (sendScript (fun k len => if k = 0 then len else -1)) 0
        [.number 3, .string longPayload]).result = .threw sendFailed ∧
    (writeImpl (sendScript (fun k len => if k = 0 then len else -1)) 0
        [.number 3, .string longPayload]).trace.length = 2 := by
  have ht := longPayload_trace (-1) (Or.inl rfl)
  have h := write_send_failure (sendScript (fun k len => if k = 0 then len else -1)) 0 3
    longPayload 1 3 (WriteAscii longPayload 4095 5) 5 (by rw [ht]; rfl)
  exact ⟨h.1, h.2.2⟩

/-! ## The loop invariant -/

/-- Every loop head reached from `(start, remaining, nBytes)` keeps
`start - nBytes` and `start + remaining` unchanged and has `remaining ≥ 0`;
the first head is the entry state itself. -/
theorem writeLoop_heads {σ : Type} (os : OS σ) (sock : Int) (data : List Byte) :
    ∀ (n : Nat) (start remaining nBytes : Int) (s : σ),
      remaining.toNat = n → 0 ≤ remaining →
      (writeLoop os sock data start remaining nBytes s).heads.head?
          = some ⟨start, remaining, nBytes⟩ ∧
      ∀ h ∈ (writeLoop os sock data start remaining nBytes s).heads,
        h.start - h.nBytes = start - nBytes ∧
        h.start + h.remaining = start + remaining ∧ 0 ≤ h.remaining := by
  intro n
  induction n using Nat.strong_induction_on with
  | _ n ih =>
    intro start remaining nBytes s hn hr
    by_cases hpos : remaining > 0
    swap
    · rw [writeLoop_exit os sock data start remaining nBytes s hpos]
      simp [hr]
    by_cases hle : remaining ≤ 4095
    · rw [writeLoop_last os sock data start remaining nBytes s hpos hle]
      split_ifs <;> simp [hr]
    · have hbig : (4095 : Int) < remaining := by omega
      rw [writeLoop_more os sock data start remaining nBytes s hbig]
      split_ifs
      · simp [hr]
      · simp [hr]
      · obtain ⟨_, hall⟩ := ih (n - 4095) (by omega) (start + 4095) (remaining - 4095)
          (nBytes + 4095) (os.send s sock (WriteAscii data start 4095) 4095).2
          (by omega) (by omega)
        refine ⟨by simp, ?_⟩
        intro h hh
        simp only [List.mem_cons] at hh
        rcases hh with rfl | hh
        · simp [hr]
        · have := hall h hh
          omega

/-- Bounds on the count the loop returns when every `send` answers `-1` or a
count between `0` and the length it was asked to send. -/
theorem writeLoop_count {σ : Type} (os : OS σ) (sock : Int) (data : List Byte) :
    ∀ (n : Nat) (start remaining nBytes : Int) (s : σ),
      remaining.toNat = n → 0 ≤ remaining →
      (∀ fd buf len m, Syscall.send fd buf len m ∈
          (writeLoop os sock data start remaining nBytes s).trace →
        m = -1 ∨ (0 ≤ m ∧ m ≤ len)) →
      ∀ r, (writeLoop os sock data start remaining nBytes s).result
          = .returned (.number r) →
        nBytes ≤ r ∧ r ≤ nBytes + remaining ∧
        (r = nBytes + remaining ↔
          ∀ fd buf len m, Syscall.send fd buf len m ∈
              (writeLoop os sock data start remaining nBytes s).trace → m = len) := by
  intro n
  induction n using Nat.strong_induction_on with
  | _ n ih =>
    intro start remaining nBytes s hn hr
    by_cases hpos : remaining > 0
    swap
    · rw [writeLoop_exit os sock data start remaining nBytes s hpos]
      intro _ r hres
      simp only [Completion.returned.injEq, JSValue.number.injEq] at hres
      subst hres
      have : remaining = 0 := by omega
      simp [this]
    by_cases hle : remaining ≤ 4095
    · rw [writeLoop_last os sock data start remaining nBytes s hpos hle]
      split_ifs with h1 h2
      · intro _ r hres; simp at hres
      · intro hresp r hres
        simp only [Completion.returned.injEq, JSValue.number.injEq] at hres
        subst hres
        have := hresp _ _ _ _ (List.mem_singleton.mpr rfl)
        refine ⟨by omega, by omega, ⟨fun h => by omega, fun h => ?_⟩⟩
        have := h _ _ _ _ (List.mem_singleton.mpr rfl)
        omega
      · intro hresp r hres
        simp only [Completion.returned.injEq, JSValue.number.injEq] at hres
        subst hres
        have := hresp _ _ _ _ (List.mem_singleton.mpr rfl)
        refine ⟨by omega, by omega, ⟨fun _ => ?_, fun _ => rfl⟩⟩
        intro fd buf len m hmem
        simp only [List.mem_singleton, Syscall.send.injEq] at hmem
        omega
    · have hbig : (4095 : Int) < remaining := by omega
      rw [writeLoop_more os sock data start remaining nBytes s hbig]
      split_ifs with h1 h2
      · intro _ r hres; simp at hres
      · intro hresp r hres
        simp only [Completion.returned.injEq, JSValue.number.injEq] at hres
        subst hres
        have := hresp _ _ _ _ (List.mem_singleton.mpr rfl)
        refine ⟨by omega, by omega, ⟨fun h => by omega, fun h => ?_⟩⟩
        have := h _ _ _ _ (List.mem_singleton.mpr rfl)
        omega
      · intro hresp r hres
        have h0 := hresp _ _ _ _ (List.mem_cons_self _ _)
        have hrec := ih (n - 4095) (by omega) (start + 4095) (remaining - 4095)
          (nBytes + 4095) (os.send s sock (WriteAscii data start 4095) 4095).2
          (by omega) (by omega)
          (fun fd buf len m hm => hresp fd buf len m (List.mem_cons_of_mem _ hm)) r hres
        obtain ⟨hlo, hhi, hiff⟩ := hrec
        refine ⟨by omega, by omega, ⟨fun h => ?_, fun h => ?_⟩⟩
        · intro fd buf len m hmem
          simp only [List.mem_cons, Syscall.send.injEq] at hmem
          rcases hmem with ⟨_, _, rfl, rfl⟩ | hmem
          · omega
          · exact hiff.mp (by omega) fd buf len m hmem
        · have := hiff.mpr (fun fd buf len m hm => h fd buf len m (List.mem_cons_of_mem _ hm))
          omega

/-- C10: when every `send` call of `writeImpl` answers `-1` or a count between
`0` and the batch size requested, every evaluation of the loop condition finds
`start = nBytes` and `start + remaining = L` (the first one with `start = 0`),
and a returned count `r` satisfies `0 ≤ r ≤ L`, with `r = L` exactly when every
`send` call accepted its batch in full. -/
theorem write_loop_invariant {σ : Type} (os : OS σ) (s : σ) (sock : Int) (data : List Byte)
    (hresp : ∀ fd buf len m, Syscall.send fd buf len m ∈
        (writeImpl os s [.number sock, .string data]).trace →
      m = -1 ∨ (0 ≤ m ∧ m ≤ len)) :
    (writeRun os s [.number sock, .string data]).heads.head?
        = some ⟨0, data.length, 0⟩ ∧
    (∀ h ∈ (writeRun os s [.number sock, .string data]).heads,
      h.start = h.nBytes ∧ h.start + h.remaining = data.length) ∧
    (∀ r, (writeImpl os s [.number sock, .string data]).result = .returned (.number r) →
      0 ≤ r ∧ r ≤ data.length ∧
      (r = data.length ↔
        ∀ fd buf len m, Syscall.send fd buf len m ∈
            (writeImpl os s [.number sock, .string data]).trace → m = len)) := by
  have hheads := writeLoop_heads os sock data data.length 0 data.length 0 s
    (by simp) (by omega)
  rw [writeImpl_valid] at hresp ⊢
  rw [writeRun_valid]
  refine ⟨hheads.1, ?_, ?_⟩
  · intro h hh
    have := hheads.2 h hh
    omega
  · intro r hres
    have := writeLoop_count os sock data data.length 0 data.length 0 s
      (by simp) (by omega) hresp r hres
    simpa using this

theorem write_loop_invariant_witness :
    (∀ h ∈ (writeRun (sendScript (fun k len => if k = 0 then len else 2)) 0
        [.number 3, .string longPayload]).heads,
      h.start = h.nBytes ∧ h.start + h.remaining = longPayload.length) ∧
    (∀ r, (writeImpl (sendScript (fun k len => if k = 0 then len else 2)) 0
        [.number 3, .string longPayload]).result = .returned (.number r) →
      0 ≤ r ∧ r ≤ longPayload.length) := by
  have ht := longPayload_trace 2 (Or.inr (by norm_num))
  have h := write_loop_invariant (sendScript (fun k len => if k = 0 then len else 2)) 0 3
    longPayload (by
      intro fd buf len m hmem
      rw [ht] at hmem
      simp only [List.mem_cons, Syscall.send.injEq, List.mem_singleton, List.not_mem_nil,
        or_false] at hmem
      rcases hmem with ⟨_, _, rfl, rfl⟩ | ⟨_, _, rfl, rfl⟩ <;> norm_num)
  exact ⟨h.2.1, fun r hr => ⟨(h.2.2 r hr).1, (h.2.2 r hr).2.1⟩⟩

/-! ## `connectImpl` -/

theorem connectImpl_parsed {σ : Type} (os : OS σ) (s : σ) (args : List JSValue)
    (port : Int) (host : List Byte) (hargs : parseArgs args = .ok (port, host)) :
    connectImpl os s args =
      if (os.getaddrinfo s host port).1.1 ≠ 0 then
        ⟨.threw (.error (getaddrinfoMessage (os.gai_strerror (os.getaddrinfo s host port).1.1))),
          [.getaddrinfo host port (os.getaddrinfo s host port).1.1],
          (os.getaddrinfo s host port).2⟩
      else if (connectLoop os (os.getaddrinfo s host port).1.2 0
          (os.getaddrinfo s host port).2).p = [] then
        ⟨.threw connectFailed,
          .getaddrinfo host port (os.getaddrinfo s host port).1.1 ::
            (connectLoop os (os.getaddrinfo s host port).1.2 0
              (os.getaddrinfo s host port).2).trace,
          (connectLoop os (os.getaddrinfo s host port).1.2 0 (os.getaddrinfo s host port).2).st⟩
      else
        ⟨.returned (.number (connectLoop os (os.getaddrinfo s host port).1.2 0
            (os.getaddrinfo s host port).2).sock),
          .getaddrinfo host port (os.getaddrinfo s host port).1.1 ::
            (connectLoop os (os.getaddrinfo s host port).1.2 0
              (os.getaddrinfo s host port).2).trace,
          (connectLoop os (os.getaddrinfo s host port).1.2 0 (os.getaddrinfo s host port).2).st⟩ := by
  simp only [connectImpl, hargs]

/-- The sockets the loop leaves open: none when it runs off the end of the
list, the one in `sock` when it breaks out. -/
theorem connectLoop_open {σ : Type} (os : OS σ) :
    ∀ (p : List AddrInfo) (sock : Int) (s : σ),
      ((connectLoop os p sock s).p = [] → openSockets [] (connectLoop os p sock s).trace = []) ∧
      ((connectLoop os p sock s).p ≠ [] →
        openSockets [] (connectLoop os p sock s).trace = [(connectLoop os p sock s).sock]) := by
  intro p
  induction p with
  | nil => intro sock s; simp [connectLoop, openSockets]
  | cons ai next ih =>
    intro sock s
    simp only [connectLoop]
    split_ifs with h1 h2
    · simpa [openSockets, h1] using ih _ _
    · simpa [openSockets, h1] using ih _ _
    · simp [openSockets, h1]

/-- C6: whatever the resolver and the socket layer answer, after `connectImpl`
returns a handle exactly one socket it created is still open, the returned
one; after it throws (argument error, resolution failure or "connect()
failed") none of the sockets it created is open. -/
theorem connect_open_sockets {σ : Type} (os : OS σ) (s : σ) (args : List JSValue) :
    (∀ v, (connectImpl os s args).result = .returned v →
      ∃ h, v = .number h ∧ openSockets [] (connectImpl os s args).trace = [h]) ∧
    (∀ e, (connectImpl os s args).result = .threw e →
      openSockets [] (connectImpl os s args).trace = []) := by
  cases hp : parseArgs args with
  | error e => simp [connectImpl, hp, openSockets]
  | ok ph =>
    obtain ⟨port, host⟩ := ph
    rw [connectImpl_parsed os s args port host hp]
    have hl := connectLoop_open os (os.getaddrinfo s host port).1.2 0
      (os.getaddrinfo s host port).2
    split_ifs with h1 h2
    · simp [openSockets]
    · simp [openSockets, hl.1 h2]
    · simp [openSockets, hl.2 h2]

/-- The loop over scripted outcomes, entered at the node with index `k`:
it breaks at the first node whose `socket` and `connect` both succeed, having
called `socket` for exactly the nodes up to it; it runs off the end when
there is no such node. -/
theorem connectLoop_script (servinfo : List AddrInfo) (sockRes connRes : Nat → Int) :
    ∀ (p : List AddrInfo) (k : Nat) (sock : Int),
      (∀ i, i < p.length → (sockRes (k + i) ≠ -1 ∧ connRes (k + i) ≠ -1) →
        (∀ j, j < i → ¬ (sockRes (k + j) ≠ -1 ∧ connRes (k + j) ≠ -1)) →
        (connectLoop (connectScript servinfo sockRes connRes) p sock k).p ≠ [] ∧
        (connectLoop (connectScript servinfo sockRes connRes) p sock k).sock
          = sockRes (k + i) ∧
        socketCalls (connectLoop (connectScript servinfo sockRes connRes) p sock k).trace
          = (p.take (i + 1)).map (fun ai => (ai.ai_family, ai.ai_socktype, ai.ai_protocol))) ∧
      ((∀ i, i < p.length → ¬ (sockRes (k + i) ≠ -1 ∧ connRes (k + i) ≠ -1)) →
        (connectLoop (connectScript servinfo sockRes connRes) p sock k).p = [] ∧
        socketCalls (connectLoop (connectScript servinfo sockRes connRes) p sock k).trace
          = p.map (fun ai => (ai.ai_family, ai.ai_socktype, ai.ai_protocol))) := by
  intro p
  induction p with
  | nil =>
    intro k sock
    refine ⟨fun i hi => absurd hi (by simp), fun _ => by simp [connectLoop, socketCalls]⟩
  | cons ai next ih =>
    intro k sock
    obtain ⟨ihA, ihB⟩ := ih (k + 1) (sockRes k)
    have hshift : ∀ i, k + 1 + i = k + (i + 1) := fun i => by omega
    simp only [hshift] at ihA ihB
    simp only [connectLoop, connectScript, Nat.add_sub_cancel]
    constructor
    · intro i hi hgood hfirst
      cases i with
      | zero =>
        simp only [Nat.add_zero] at hgood
        simp [hgood.1, hgood.2, socketCalls]
      | succ i =>
        have h0 := hfirst 0 (by omega)
        simp only [Nat.add_zero] at h0
        have hi' : i < next.length := by simpa using hi
        have hrec := ihA i hi' hgood (fun j hj => hfirst (j + 1) (by omega))
        simp only [connectScript] at hrec
        by_cases hs : sockRes k = -1
        · simpa [hs, socketCalls] using hrec
        · have hc : connRes k = -1 := by
            by_contra hc
            exact h0 ⟨hs, hc⟩
          simpa [hs, hc, socketCalls] using hrec
    · intro hnone
      have h0 := hnone 0 (by simp)
      simp only [Nat.add_zero] at h0
      have hrec := ihB (fun i hi => hnone (i + 1) (by simpa using hi))
      simp only [connectScript] at hrec
      by_cases hs : sockRes k = -1
      · simpa [hs, socketCalls] using hrec
      · have hc : connRes k = -1 := by
          by_contra hc
          exact h0 ⟨hs, hc⟩
        simpa [hs, hc, socketCalls] using hrec

/-- C5: for every candidate list and every outcome of `socket` and `connect` on
each candidate (candidate `i` gets `sockRes i` and `connRes i`, `-1` meaning
failure), `connectImpl` returns the descriptor of the first candidate, in list
order, for which both calls succeed, having called `socket` for the
candidates up to that one and for no later one; and it throws
"connect() failed" exactly when no candidate succeeds at both. -/
theorem connect_first_success (servinfo : List AddrInfo) (sockRes connRes : Nat → Int)
    (s : Nat) (args : List JSValue) (port : Int) (host : List Byte)
    (hargs : parseArgs args = .ok (port, host)) :
    (∀ i, i < servinfo.length → (sockRes i ≠ -1 ∧ connRes i ≠ -1) →
      (∀ j, j < i → ¬ (sockRes j ≠ -1 ∧ connRes j ≠ -1)) →
      (connectImpl (connectScript servinfo sockRes connRes) s args).result
        = .returned (.number (sockRes i)) ∧
      socketCalls (connectImpl (connectScript servinfo sockRes connRes) s args).trace
        = (servinfo.take (i + 1)).map
            (fun ai => (ai.ai_family, ai.ai_socktype, ai.ai_protocol))) ∧
    ((connectImpl (connectScript servinfo sockRes connRes) s args).result
        = .threw connectFailed ↔
      ∀ i, i < servinfo.length → ¬ (sockRes i ≠ -1 ∧ connRes i ≠ -1)) := by
  obtain ⟨hA, hB⟩ := connectLoop_script servinfo sockRes connRes servinfo 0 0
  simp only [Nat.zero_add] at hA hB
  have hrun := connectImpl_parsed (connectScript servinfo sockRes connRes) s args port host hargs
  have hg : (connectScript servinfo sockRes connRes).getaddrinfo s host port
      = ((0, servinfo), 0) := rfl
  rw [hg] at hrun
  simp only [ne_eq, not_true_eq_false, if_false] at hrun
  have hfirst : ∀ i, i < servinfo.length → (sockRes i ≠ -1 ∧ connRes i ≠ -1) →
      (∀ j, j < i → ¬ (sockRes j ≠ -1 ∧ connRes j ≠ -1)) →
      (connectImpl (connectScript servinfo sockRes connRes) s args).result
        = .returned (.number (sockRes i)) ∧
      socketCalls (connectImpl (connectScript servinfo sockRes connRes) s args).trace
        = (servinfo.take (i + 1)).map
            (fun ai => (ai.ai_family, ai.ai_socktype, ai.ai_protocol)) := by
    intro i hi hgood hmin
    obtain ⟨hp, hsock, hcalls⟩ := hA i hi hgood hmin
    rw [hrun]
    simp only [hp, if_false, hsock]
    refine ⟨trivial, ?_⟩
    simpa [socketCalls] using hcalls
  refine ⟨hfirst, ⟨fun hfail => ?_, fun hnone => ?_⟩⟩
  · by_contra hex
    push_neg at hex
    have hex' : ∃ i, i < servinfo.length ∧ sockRes i ≠ -1 ∧ connRes i ≠ -1 := by
      obtain ⟨i, hi, h1, h2⟩ := hex
      exact ⟨i, hi, h1, h2⟩
    have hspec := Nat.find_spec hex'
    have hres := (hfirst (Nat.find hex') hspec.1 hspec.2 (fun j hj hgood => by
      have hle := Nat.find_min' hex' ⟨lt_trans hj hspec.1, hgood⟩
      omega)).1
    rw [hres] at hfail
    cases hfail
  · rw [hrun]
    simp [(hB hnone).1]

theorem connect_first_success_witness :
    (connectImpl
      (connectScript
        [⟨10, 1, 6, [0, 0, 0, 0, 0, 0, 0, 0, 0, 0, 0, 0, 0, 0, 0, 1]⟩, ⟨2, 1, 6, [127, 0, 0, 1]⟩,
          ⟨2, 1, 6, [127, 0, 0, 2]⟩, ⟨2, 1, 6, [127, 0, 0, 3]⟩]
        (fun i => if i = 0 then -1 else 5) (fun i => if i = 1 then -1 else 0))
      0 [.number 9999]).result = .returned (.number 5) ∧
    socketCalls (connectImpl
      (connectScript
        [⟨10, 1, 6, [0, 0, 0, 0, 0, 0, 0, 0, 0, 0, 0, 0, 0, 0, 0, 1]⟩, ⟨2, 1, 6, [127, 0, 0, 1]⟩,
          ⟨2, 1, 6, [127, 0, 0, 2]⟩, ⟨2, 1, 6, [127, 0, 0, 3]⟩]
        (fun i => if i = 0 then -1 else 5) (fun i => if i = 1 then -1 else 0))
      0 [.number 9999]).trace = [(10, 1, 6), (2, 1, 6), (2, 1, 6)] :=
  (connect_first_success
    [⟨10, 1, 6, [0, 0, 0, 0, 0, 0, 0, 0, 0, 0, 0, 0, 0, 0, 0, 1]⟩, ⟨2, 1, 6, [127, 0, 0, 1]⟩,
      ⟨2, 1, 6, [127, 0, 0, 2]⟩, ⟨2, 1, 6, [127, 0, 0, 3]⟩]
    (fun i => if i = 0 then -1 else 5) (fun i => if i = 1 then -1 else 0)
    0 [.number 9999] 9999 [108, 111, 99, 97, 108, 104, 111, 115, 116] rfl).1
    2 (by decide) (by decide) (by decide)

/-! ## `readImpl` -/

theorem takeWhile_append_stop (q : Byte → Bool) (l r : List Byte) (a : Byte) (ha : q a = false) :
    (l ++ a :: r).takeWhile q = l.takeWhile q := by
  induction l with
  | nil => simp [List.takeWhile, ha]
  | cons b l ih =>
    simp only [List.cons_append, List.takeWhile_cons]
    split
    · rw [ih]
    · rfl

/-- The text `readImpl` builds from the buffer once `recv` has stored `got`
and the terminator has been written behind it. -/
theorem cString_terminated (buf0 got : List Byte) (h : got.length < buf0.length) :
    cString ((recvStore buf0 got).set got.length 0) = got.takeWhile (fun b => b ≠ 0) := by
  have hd : buf0.drop got.length ≠ [] := by
    intro hnil
    have := congrArg List.length hnil
    simp only [List.length_drop, List.length_nil] at this
    omega
  obtain ⟨x, rest, hx⟩ := List.exists_cons_of_ne_nil hd
  have hset : (recvStore buf0 got).set got.length 0 = got ++ 0 :: rest := by
    simp only [recvStore, hx]
    rw [List.set_append_right _ _ (le_refl _)]
    simp
  rw [hset, cString]
  exact takeWhile_append_stop _ got rest 0 (by simp)

/-- The run of `readImpl` on a numeric handle, in terms of what `recv`
answers. -/
theorem readImpl_valid {σ : Type} (os : OS σ) (s : σ) (buf0 : List Byte) (sock : Int)
    (n : Int) (got : List Byte) (t : σ) (hr : os.recv s sock 4095 = ((n, got), t)) :
    readImpl os s buf0 [.number sock] =
      if n ≤ 0 then ⟨.threw recvFailed, [.recv sock 4095 n], t⟩
      else ⟨.returned (.string (cString ((recvStore buf0 got).set n.toNat 0))),
        [.recv sock 4095 n], t⟩ := by
  have hB : BUFSIZE - 1 = 4095 := by simp [BUFSIZE]
  simp [readImpl, argAt, JSValue.IsNumber, JSValue.NumberValue, hB, hr]

/-- C7 as stated fails when a received byte is zero: `recv` delivers the
three bytes `a`, NUL, `b` (`n = 3 > 0`) and `readImpl` returns the one-byte
text `a`, not the three received bytes. -/
theorem read_truncates_at_zero_byte :
    (recvScript 3 [97, 0, 98]).recv () 5 4095 = ((3, [97, 0, 98]), ()) ∧
    (readImpl (recvScript 3 [97, 0, 98]) () staleBuffer [.number 5]).result
      = .returned (.string [97]) ∧
    (readImpl (recvScript 3 [97, 0, 98]) () staleBuffer [.number 5]).result
      ≠ .returned (.string [97, 0, 98]) := by
  have h := readImpl_valid (recvScript 3 [97, 0, 98]) () staleBuffer 5 3 [97, 0, 98] () rfl
  have hc := cString_terminated staleBuffer [97, 0, 98]
    (by rw [staleBuffer, List.length_replicate]; decide)
  have hres : (readImpl (recvScript 3 [97, 0, 98]) () staleBuffer [.number 5]).result
      = .returned (.string [97]) := by
    rw [h]
    simp only [show ¬ ((3 : Int) ≤ 0) by decide, if_false]
    have h3 : (3 : Int).toNat = [97, 0, 98].length := by decide
    rw [h3, hc]
    decide
  refine ⟨rfl, hres, ?_⟩
  rw [hres]
  decide

/-- C7, amended: `readImpl` issues one `recv` call, asking for 4095 bytes; if
the call returns `n ≤ 0` it throws "recv() failed"; if it returns `n > 0` after
storing `n ≤ 4095` bytes it returns the received bytes that precede the first
zero byte among them, so all `n` of them when none is zero. -/
theorem read_single_recv {σ : Type} (os : OS σ) (s : σ) (buf0 : List Byte) (sock : Int)
    (n : Int) (got : List Byte) (t : σ)
    (hbuf : (buf0.length : Int) = BUFSIZE)
    (hr : os.recv s sock 4095 = ((n, got), t))
    (hn : n ≤ 4095) (hgot : 0 < n → (got.length : Int) = n) :
    (readImpl os s buf0 [.number sock]).trace = [.recv sock 4095 n] ∧
    (n ≤ 0 → (readImpl os s buf0 [.number sock]).result = .threw recvFailed) ∧
    (0 < n → (readImpl os s buf0 [.number sock]).result
      = .returned (.string (got.takeWhile (fun b => b ≠ 0)))) ∧
    (0 < n → 0 ∉ got →
      (readImpl os s buf0 [.number sock]).result = .returned (.string got)) := by
  rw [readImpl_valid os s buf0 sock n got t hr]
  have hpos : 0 < n → (if n ≤ 0 then (⟨.threw recvFailed, [.recv sock 4095 n], t⟩ : Outcome σ)
      else ⟨.returned (.string (cString ((recvStore buf0 got).set n.toNat 0))),
        [.recv sock 4095 n], t⟩).result
      = .returned (.string (got.takeWhile (fun b => b ≠ 0))) := by
    intro h0
    have hlen := hgot h0
    have hidx : n.toNat = got.length := by omega
    simp only [show ¬ n ≤ 0 by omega, if_false, hidx]
    rw [cString_terminated buf0 got (by simp only [BUFSIZE] at hbuf; omega)]
  refine ⟨by split_ifs <;> rfl, fun h => by simp [h], hpos, fun h0 hz => ?_⟩
  rw [hpos h0]
  congr 2
  rw [List.takeWhile_eq_self_iff]
  intro b hb
  have : b ≠ 0 := fun h => hz (h ▸ hb)
  simpa using this

theorem read_single_recv_witness :
    (readImpl (recvScript 4 [112, 111, 110, 103]) () staleBuffer [.number 5]).trace
      = [.recv 5 4095 4] ∧
    (readImpl (recvScript 4 [112, 111, 110, 103]) () staleBuffer [.number 5]).result
      = .returned (.string [112, 111, 110, 103]) := by
  have h := read_single_recv (recvScript 4 [112, 111, 110, 103]) () staleBuffer 5 4
    [112, 111, 110, 103] ()
    (by rw [staleBuffer, List.length_replicate]; rfl) rfl (by decide) (fun _ => rfl)
  exact ⟨h.1, h.2.2.2 (by decide) (by decide)⟩

/-! ## Argument validation -/

/-- C8: for each of `connectImpl`, `readImpl`, `writeImpl` and `closeImpl`, an
argument list in which a required argument is missing or has the wrong type
makes the operation throw a type error without issuing any system call and
without touching the oracle state (for `connectImpl` also when the optional
host is present and not a string).  Presence is checked before type: with no
argument each operation reports the missing argument, and `writeImpl` with
one argument reports the missing data whatever the type of that argument. -/
theorem argument_errors {σ : Type} (os : OS σ) (s : σ) (buf0 : List Byte)
    (args : List JSValue) :
    ((args.length < 1 ∨ (argAt args 0).IsNumber = false ∨
        (2 ≤ args.length ∧ (argAt args 1).IsString = false)) →
      ∃ msg, connectImpl os s args = ⟨.threw (.typeError msg), [], s⟩) ∧
    ((args.length < 1 ∨ (argAt args 0).IsNumber = false) →
      ∃ msg, readImpl os s buf0 args = ⟨.threw (.typeError msg), [], s⟩) ∧
    ((args.length < 2 ∨ (argAt args 0).IsNumber = false ∨ (argAt args 1).IsString = false) →
      ∃ msg, writeImpl os s args = ⟨.threw (.typeError msg), [], s⟩) ∧
    ((args.length < 1 ∨ (argAt args 0).IsNumber = false) →
      ∃ msg, closeImpl os s args = ⟨.threw (.typeError msg), [], s⟩) ∧
    (args.length < 1 →
      (connectImpl os s args).result = .threw (.typeError "port is not specified") ∧
      (readImpl os s buf0 args).result = .threw (.typeError "socket is not specified") ∧
      (writeImpl os s args).result
        = .threw (.typeError "socket and data are not specified") ∧
      (closeImpl os s args).result = .threw (.typeError "socket is not specified")) ∧
    (args.length = 1 →
      (writeImpl os s args).result = .threw (.typeError "data is not specified")) := by
  refine ⟨?_, ?_, ?_, ?_, ?_, ?_⟩
  · intro h
    by_cases h1 : args.length < 1
    · exact ⟨"port is not specified", by simp [connectImpl, parseArgs, h1]⟩
    by_cases h2 : (argAt args 0).IsNumber = false
    · exact ⟨"port is not a number", by simp [connectImpl, parseArgs, h1, h2]⟩
    rcases h with h | h | ⟨h3, h4⟩
    · exact absurd h h1
    · exact absurd h h2
    · exact ⟨"host is not a string", by simp [connectImpl, parseArgs, h1, h2, h3, h4]⟩
  · intro h
    by_cases h1 : args.length < 1
    · exact ⟨"socket is not specified", by simp [readImpl, h1]⟩
    rcases h with h | h
    · exact absurd h h1
    · exact ⟨"socket is not a number", by simp [readImpl, h1, h]⟩
  · intro h
    by_cases h1 : args.length < 1
    · exact ⟨"socket and data are not specified", by simp [writeImpl, writeRun, h1]⟩
    by_cases h2 : args.length < 2
    · exact ⟨"data is not specified", by simp [writeImpl, writeRun, h1, h2]⟩
    by_cases h3 : (argAt args 0).IsNumber = false
    · exact ⟨"socket is not a number", by simp [writeImpl, writeRun, h1, h2, h3]⟩
    rcases h with h | h | h
    · exact absurd h h2
    · exact absurd h h3
    · exact ⟨"data is not a string", by simp [writeImpl, writeRun, h1, h2, h3, h]⟩
  · intro h
    by_cases h1 : args.length < 1
    · exact ⟨"socket is not specified", by simp [closeImpl, h1]⟩
    rcases h with h | h
    · exact absurd h h1
    · exact ⟨"socket is not a number", by simp [closeImpl, h1, h]⟩
  · intro h1
    simp [connectImpl, parseArgs, readImpl, writeImpl, writeRun, closeImpl, h1]
  · intro h1
    simp [writeImpl, writeRun, h1]

end Syncnet
